import Mathlib

/-!
Verification of the `@sergiodxa/api-client` request engine against its
specification.  The development shallowly embeds the TypeScript sources:

* `src/json.ts` — the key-casing codec (`serialize` / `parse`);
* `src/generate-path.ts` — the path templater (`generatePath`);
* `src/index.ts` — the request engine (`createAPIClient` / `request`,
  `getURL`, `getSearchParams`, `getBody`, response classification).

JavaScript runtime values that can appear in request/response bodies and
search parameters are embedded as the inductive type `Json`.  Machine
floats never matter for the verified claims, so JS numbers are embedded
as integers.  The external JSON text encoding (`JSON.stringify` /
`JSON.parse` without the replacer/reviver logic) is treated as an exact
codec on JSON values, so serialization is modelled at the value level;
the replacer/reviver key-renaming — the code under verification — is
embedded exactly, including `Object.fromEntries` collision behaviour.
-/

/-- A JavaScript runtime value, as far as the claims need it: the JSON
universe (`null`, booleans, numbers, strings, arrays, objects) plus a
constructor `other` standing for the non-JSON values (`undefined`,
symbols, functions) that the query encoder's `default` branch ignores.
Object fields keep insertion order, as JS objects do. -/
inductive Json where
  | null : Json
  | boolean (b : Bool) : Json
  | num (n : Int) : Json
  | str (s : String) : Json
  | arr (items : List Json) : Json
  | obj (fields : List (String × Json)) : Json
  | other : Json

/-- Setting a property on a JS object: an existing key keeps its position
and gets the new value, a fresh key is appended.  This is the semantics
`Object.fromEntries` applies entry by entry. -/
def objSet (l : List (String × Json)) (k : String) (v : Json) :
    List (String × Json) :=
  if l.any (fun p => p.1 == k) then
    l.map (fun p => if p.1 == k then (k, v) else p)
  else l ++ [(k, v)]

/-- `Object.fromEntries`: build an object from a list of entries, later
duplicate keys overwriting the value stored at the first occurrence. -/
def fromEntriesJS (l : List (String × Json)) : List (String × Json) :=
  l.foldl (fun acc p => objSet acc p.1 p.2) []

/-- Recursive key rename applied by the codec: the composition of
`JSON.stringify`'s replacer walk (respectively `JSON.parse`'s reviver
walk) in `src/json.ts` — every plain-object node (`typeof value ===
"object" && !Array.isArray(value) && value !== null`) has its keys
renamed by `f` and rebuilt with `Object.fromEntries`; arrays are walked
but not renamed; primitives pass through. -/
def mapJsonKeys (f : String → String) : Json → Json
  | .null => .null
  | .boolean b => .boolean b
  | .num n => .num n
  | .str s => .str s
  | .other => .other
  | .arr items => .arr (items.attach.map (fun x => mapJsonKeys f x.1))
  | .obj fields =>
      .obj (fromEntriesJS (fields.attach.map
        (fun p => (f p.1.1, mapJsonKeys f p.1.2))))
termination_by j => sizeOf j
decreasing_by
  · have := List.sizeOf_lt_of_mem x.2
    simp only [Json.arr.sizeOf_spec]
    omega
  · have h1 := List.sizeOf_lt_of_mem p.2
    have h2 : sizeOf p.1.2 < sizeOf p.1 := by
      obtain ⟨a, b⟩ := p.1
      simp
    simp only [Json.obj.sizeOf_spec]
    omega

/-- Modelled from the spec: `underscore` from the external `inflected`
package (not part of this repository) converts a camelCase identifier to
snake_case — each uppercase letter becomes an underscore followed by its
lowercase form. -/
def underscoreChars : List Char → List Char
  | [] => []
  | c :: rest =>
      if c.isUpper then '_' :: c.toLower :: underscoreChars rest
      else c :: underscoreChars rest

/-- Modelled from the spec: string-level `underscore`. -/
def underscore (s : String) : String := String.mk (underscoreChars s.data)

/-- Modelled from the spec: the underscore-removal pass of `camelize`
from the external `inflected` package — an underscore followed by a
character is replaced by that character uppercased. -/
def camelizeChars : List Char → List Char
  | [] => []
  | [c] => if c = '_' then [] else [c]
  | c :: c2 :: rest =>
      if c = '_' then c2.toUpper :: camelizeChars rest
      else c :: camelizeChars (c2 :: rest)

/-- Modelled from the spec: `camelize(term, false)` — lowercase the first
character, then fold every `_x` pair into an uppercase `X`. -/
def camelize (s : String) : String :=
  match s.data with
  | [] => ""
  | c :: rest => String.mk (c.toLower :: camelizeChars rest)

/-- `serialize` from `src/json.ts`, at the JSON-value level: rename every
object key to snake_case while walking the whole tree (the `JSON.stringify`
text encoding itself is abstracted away as an exact codec). -/
def serialize (x : Json) : Json := mapJsonKeys underscore x

/-- `parse` from `src/json.ts`, at the JSON-value level: rename every
object key to camelCase while walking the whole tree (the `JSON.parse`
text decoding itself is abstracted away as an exact codec). -/
def parse (x : Json) : Json := mapJsonKeys camelize x

/-- A valid camelCase identifier: nonempty, starts with a lowercase ASCII
letter, and continues with ASCII letters and digits only. -/
def isCamelIdent (s : String) : Bool :=
  match s.data with
  | [] => false
  | c :: rest => c.isLower && rest.all (fun d => d.isAlpha || d.isDigit)

/-- JSON compatibility: the value contains no non-JSON node, and every
object node has pairwise-distinct keys (as a JS object always does). -/
def jsonWellFormed : Json → Bool
  | .null => true
  | .boolean _ => true
  | .num _ => true
  | .str _ => true
  | .other => false
  | .arr items => items.attach.all (fun x => jsonWellFormed x.1)
  | .obj fields =>
      decide ((fields.map (fun p => p.1)).Nodup) &&
        fields.attach.all (fun p => jsonWellFormed p.1.2)
termination_by j => sizeOf j
decreasing_by
  · have := List.sizeOf_lt_of_mem x.2
    simp only [Json.arr.sizeOf_spec]
    omega
  · have h1 := List.sizeOf_lt_of_mem p.2
    have h2 : sizeOf p.1.2 < sizeOf p.1 := by
      obtain ⟨a, b⟩ := p.1
      simp
    simp only [Json.obj.sizeOf_spec]
    omega

/-- Every object key in the tree is a valid camelCase identifier. -/
def camelCaseKeys : Json → Bool
  | .null => true
  | .boolean _ => true
  | .num _ => true
  | .str _ => true
  | .other => true
  | .arr items => items.attach.all (fun x => camelCaseKeys x.1)
  | .obj fields =>
      fields.all (fun p => isCamelIdent p.1) &&
        fields.attach.all (fun p => camelCaseKeys p.1.2)
termination_by j => sizeOf j
decreasing_by
  · have := List.sizeOf_lt_of_mem x.2
    simp only [Json.arr.sizeOf_spec]
    omega
  · have h1 := List.sizeOf_lt_of_mem p.2
    have h2 : sizeOf p.1.2 < sizeOf p.1 := by
      obtain ⟨a, b⟩ := p.1
      simp
    simp only [Json.obj.sizeOf_spec]
    omega
/-! Clean equations for the attach-based recursions. -/

theorem attach_all_eq {α : Type} (l : List α) (f : α → Bool) :
    (l.attach.all fun x => f x.1) = l.all f := by
  rw [Bool.eq_iff_iff, List.all_eq_true, List.all_eq_true]
  constructor
  · intro h x hx
    exact h ⟨x, hx⟩ (List.mem_attach l ⟨x, hx⟩)
  · intro h x _
    exact h x.1 x.2

theorem mapJsonKeys_arr (f : String → String) (items : List Json) :
    mapJsonKeys f (.arr items) = .arr (items.map (mapJsonKeys f)) := by
  rw [mapJsonKeys]
  simp [List.attach_map_coe]

theorem mapJsonKeys_obj (f : String → String) (fields : List (String × Json)) :
    mapJsonKeys f (.obj fields) =
      .obj (fromEntriesJS (fields.map (fun p => (f p.1, mapJsonKeys f p.2)))) := by
  rw [mapJsonKeys]
  congr 1
  congr 1
  exact List.attach_map_coe fields (fun p => (f p.1, mapJsonKeys f p.2))

theorem jsonWellFormed_arr (items : List Json) :
    jsonWellFormed (.arr items) = items.all jsonWellFormed := by
  rw [jsonWellFormed]
  exact attach_all_eq items jsonWellFormed

theorem jsonWellFormed_obj (fields : List (String × Json)) :
    jsonWellFormed (.obj fields) =
      (decide ((fields.map (fun p => p.1)).Nodup) &&
        fields.all (fun p => jsonWellFormed p.2)) := by
  rw [jsonWellFormed]
  congr 1
  exact attach_all_eq fields (fun p => jsonWellFormed p.2)

theorem camelCaseKeys_arr (items : List Json) :
    camelCaseKeys (.arr items) = items.all camelCaseKeys := by
  rw [camelCaseKeys]
  exact attach_all_eq items camelCaseKeys

theorem camelCaseKeys_obj (fields : List (String × Json)) :
    camelCaseKeys (.obj fields) =
      (fields.all (fun p => isCamelIdent p.1) &&
        fields.all (fun p => camelCaseKeys p.2)) := by
  rw [camelCaseKeys]
  congr 1
  exact attach_all_eq fields (fun p => camelCaseKeys p.2)

/-- Structural induction principle for `Json` trees. -/
theorem Json.inductOn (motive : Json → Prop)
    (hnull : motive .null) (hbool : ∀ b, motive (.boolean b))
    (hnum : ∀ n, motive (.num n)) (hstr : ∀ s, motive (.str s))
    (hother : motive .other)
    (harr : ∀ items, (∀ x ∈ items, motive x) → motive (.arr items))
    (hobj : ∀ fields, (∀ p ∈ fields, motive p.2) → motive (.obj fields)) :
    ∀ j, motive j
  | .null => hnull
  | .boolean b => hbool b
  | .num n => hnum n
  | .str s => hstr s
  | .other => hother
  | .arr items => harr items (fun x _ =>
      Json.inductOn motive hnull hbool hnum hstr hother harr hobj x)
  | .obj fields => hobj fields (fun p _ =>
      Json.inductOn motive hnull hbool hnum hstr hother harr hobj p.2)
termination_by j => sizeOf j
decreasing_by
  · rename_i hx
    have := List.sizeOf_lt_of_mem hx
    simp only [Json.arr.sizeOf_spec]
    omega
  · rename_i hp
    have h1 := List.sizeOf_lt_of_mem hp
    have h2 : sizeOf p.2 < sizeOf p := by
      obtain ⟨a, b⟩ := p
      simp
    simp only [Json.obj.sizeOf_spec]
    omega

/-! Character-level facts about the casing conversion. -/

theorem toLower_of_isLower (c : Char) (h : c.isLower = true) : c.toLower = c := by
  simp only [Char.isLower, Bool.and_eq_true, decide_eq_true_eq] at h
  obtain ⟨h1, h2⟩ := h
  have h1' : (97 : Nat) ≤ c.val.toNat := h1
  have h2' : c.val.toNat ≤ 122 := h2
  unfold Char.toLower
  rw [if_neg]
  simp only [Char.toNat]
  omega

theorem isUpper_false_of_isLower (c : Char) (h : c.isLower = true) :
    c.isUpper = false := by
  simp only [Char.isLower, Bool.and_eq_true, decide_eq_true_eq] at h
  obtain ⟨h1, h2⟩ := h
  have h1' : (97 : Nat) ≤ c.val.toNat := h1
  simp only [Char.isUpper, Bool.and_eq_false_iff, decide_eq_false_iff_not]
  right
  intro hcontra
  have : c.val.toNat ≤ 90 := hcontra
  omega

theorem toUpper_toLower_of_isUpper (c : Char) (h : c.isUpper = true) :
    (c.toLower).toUpper = c := by
  simp only [Char.isUpper, Bool.and_eq_true, decide_eq_true_eq] at h
  obtain ⟨h1, h2⟩ := h
  have h1' : (65 : Nat) ≤ c.val.toNat := h1
  have h2' : c.val.toNat ≤ 90 := h2
  unfold Char.toLower
  rw [if_pos (by simp only [Char.toNat]; omega)]
  unfold Char.toUpper
  have hv : (c.toNat + 32).isValidChar := by
    left
    simp only [Char.toNat]
    omega
  have ht : (Char.ofNat (c.toNat + 32)).toNat = c.toNat + 32 := by
    unfold Char.ofNat
    rw [dif_pos hv]
    rfl
  rw [ht]
  rw [if_pos (by simp only [Char.toNat] at *; omega)]
  have hs : c.toNat + 32 - 32 = c.toNat := by omega
  rw [hs]
  exact Char.ofNat_toNat c

theorem alnum_ne_underscore (c : Char) (h : (c.isAlpha || c.isDigit) = true) :
    ¬ c = '_' := by
  intro hc
  subst hc
  simp only [Char.isAlpha, Char.isUpper, Char.isLower, Char.isDigit] at h
  revert h
  decide

/-! Round trip of the casing conversion on camelCase identifiers. -/

theorem camelizeChars_cons_of_ne (c : Char) (l : List Char) (h : ¬ c = '_') :
    camelizeChars (c :: l) = c :: camelizeChars l := by
  cases l with
  | nil =>
    simp only [camelizeChars]
    rw [if_neg h]
  | cons c2 rest =>
    rw [camelizeChars, if_neg h]

theorem camelizeChars_underscoreChars (l : List Char)
    (h : l.all (fun d => d.isAlpha || d.isDigit) = true) :
    camelizeChars (underscoreChars l) = l := by
  induction l with
  | nil => rfl
  | cons d tl ih =>
    rw [List.all_cons, Bool.and_eq_true] at h
    obtain ⟨hd, htl⟩ := h
    rw [underscoreChars]
    by_cases hu : d.isUpper = true
    · rw [if_pos hu]
      rw [camelizeChars]
      rw [if_pos rfl]
      rw [toUpper_toLower_of_isUpper d hu, ih htl]
    · rw [if_neg hu]
      rw [camelizeChars_cons_of_ne d _ (alnum_ne_underscore d hd)]
      rw [ih htl]

theorem camelize_underscore (k : String) (h : isCamelIdent k = true) :
    camelize (underscore k) = k := by
  obtain ⟨data⟩ := k
  unfold isCamelIdent at h
  match hdata : data with
  | [] => simp [hdata] at h
  | c :: rest =>
    simp only at h
    rw [Bool.and_eq_true] at h
    obtain ⟨hc, hrest⟩ := h
    unfold underscore camelize
    simp only
    rw [underscoreChars]
    rw [if_neg (by rw [isUpper_false_of_isLower c hc]; simp)]
    simp only
    rw [toLower_of_isLower c hc, camelizeChars_underscoreChars rest hrest]

/-! `Object.fromEntries` is the identity on duplicate-free entry lists. -/

theorem objSet_eq_append (acc : List (String × Json)) (k : String) (v : Json)
    (h : ∀ q ∈ acc, q.1 ≠ k) : objSet acc k v = acc ++ [(k, v)] := by
  unfold objSet
  rw [if_neg]
  intro hc
  rw [List.any_eq_true] at hc
  obtain ⟨q, hq, hqk⟩ := hc
  exact h q hq (by simpa using hqk)

theorem foldl_objSet_eq (l : List (String × Json)) :
    ∀ acc : List (String × Json),
    (∀ p ∈ l, ∀ q ∈ acc, q.1 ≠ p.1) →
    (l.map (fun p => p.1)).Nodup →
    l.foldl (fun a p => objSet a p.1 p.2) acc = acc ++ l := by
  induction l with
  | nil =>
    intro acc _ _
    simp
  | cons p tl ih =>
    intro acc hdisj hnd
    rw [List.foldl_cons]
    rw [objSet_eq_append acc p.1 p.2
      (fun q hq => hdisj p (List.mem_cons_self p tl) q hq)]
    rw [List.map_cons, List.nodup_cons] at hnd
    obtain ⟨hp1, htl⟩ := hnd
    rw [ih (acc ++ [(p.1, p.2)]) ?_ htl]
    · simp
    · intro r hr q hq
      rcases List.mem_append.mp hq with hq1 | hq2
      · exact hdisj r (List.mem_cons_of_mem p hr) q hq1
      · have hq' : q = (p.1, p.2) := by simpa using hq2
        subst hq'
        intro hcontra
        exact hp1 (hcontra ▸ List.mem_map_of_mem (fun p => p.1) hr)

theorem fromEntriesJS_eq_self (l : List (String × Json))
    (hnd : (l.map (fun p => p.1)).Nodup) : fromEntriesJS l = l := by
  unfold fromEntriesJS
  rw [foldl_objSet_eq l [] (fun p _ q hq => absurd hq (List.not_mem_nil q)) hnd]
  simp

/-- C4: for every JSON-compatible value whose object keys are all valid
camelCase identifiers, `parse (serialize x)` is structurally equal to `x`:
the round-trip law of the key-casing codec of `src/json.ts`, applied
recursively through nested objects and arrays. -/
theorem c4_parse_serialize_roundtrip (x : Json)
    (hwf : jsonWellFormed x = true) (hck : camelCaseKeys x = true) :
    parse (serialize x) = x := by
  revert hwf hck
  unfold parse serialize
  induction x using Json.inductOn with
  | hnull => intro _ _; simp only [mapJsonKeys]
  | hbool b => intro _ _; simp only [mapJsonKeys]
  | hnum n => intro _ _; simp only [mapJsonKeys]
  | hstr s => intro _ _; simp only [mapJsonKeys]
  | hother =>
    intro hwf _
    rw [jsonWellFormed] at hwf
    exact absurd hwf (by simp)
  | harr items ihs =>
    intro hwf hck
    rw [jsonWellFormed_arr, List.all_eq_true] at hwf
    rw [camelCaseKeys_arr, List.all_eq_true] at hck
    rw [mapJsonKeys_arr, mapJsonKeys_arr, List.map_map]
    congr 1
    have hcong : items.map (mapJsonKeys camelize ∘ mapJsonKeys underscore) =
        items.map (fun x => x) :=
      List.map_congr_left (fun x hx => ihs x hx (hwf x hx) (hck x hx))
    rw [hcong, List.map_id']
  | hobj fields ihs =>
    intro hwf hck
    rw [jsonWellFormed_obj, Bool.and_eq_true, decide_eq_true_eq] at hwf
    obtain ⟨hnd, hwfall⟩ := hwf
    rw [List.all_eq_true] at hwfall
    rw [camelCaseKeys_obj, Bool.and_eq_true] at hck
    obtain ⟨hkeys, hckall⟩ := hck
    rw [List.all_eq_true] at hkeys
    rw [List.all_eq_true] at hckall
    rw [mapJsonKeys_obj]
    have hinj : ∀ a ∈ fields.map (fun p => p.1), ∀ b ∈ fields.map (fun p => p.1),
        underscore a = underscore b → a = b := by
      intro a ha b hb hab
      obtain ⟨pa, hpa, hpa1⟩ := List.mem_map.mp ha
      obtain ⟨pb, hpb, hpb1⟩ := List.mem_map.mp hb
      have hca : isCamelIdent a = true := hpa1 ▸ hkeys pa hpa
      have hcb : isCamelIdent b = true := hpb1 ▸ hkeys pb hpb
      calc a = camelize (underscore a) := (camelize_underscore a hca).symm
        _ = camelize (underscore b) := by rw [hab]
        _ = b := camelize_underscore b hcb
    have hndu : ((fields.map (fun p => (underscore p.1, mapJsonKeys underscore p.2))).map
        (fun p => p.1)).Nodup := by
      rw [List.map_map]
      have : ((fun p => p.1) ∘ fun p : String × Json =>
          (underscore p.1, mapJsonKeys underscore p.2)) =
          (underscore ∘ fun p : String × Json => p.1) := rfl
      rw [this, ← List.map_map]
      exact List.Nodup.map_on hinj hnd
    rw [fromEntriesJS_eq_self _ hndu]
    rw [mapJsonKeys_obj]
    rw [List.map_map]
    have hpt : fields.map ((fun p => (camelize p.1, mapJsonKeys camelize p.2)) ∘
        (fun p : String × Json => (underscore p.1, mapJsonKeys underscore p.2))) =
        fields.map (fun p => p) := by
      apply List.map_congr_left
      intro p hp
      show (camelize (underscore p.1), mapJsonKeys camelize (mapJsonKeys underscore p.2)) = p
      rw [camelize_underscore p.1 (hkeys p hp), ihs p hp (hwfall p hp) (hckall p hp)]
    rw [hpt, List.map_id']
    exact congrArg Json.obj (fromEntriesJS_eq_self fields hnd)

/-- Concrete camelCase-keyed JSON value used to witness the round trip
(the repository's own test value, extended with nesting). -/
def roundtripSample : Json :=
  .obj [("fooBar", .str "baz"),
        ("items", .arr [.obj [("innerKey", .num 1)], .num 2]),
        ("emptyOne", .obj [])]

/-- Witness for C4 at a concrete input. -/
theorem c4_parse_serialize_roundtrip_witness :
    jsonWellFormed roundtripSample = true ∧
    camelCaseKeys roundtripSample = true ∧
    parse (serialize roundtripSample) = roundtripSample := by
  refine ⟨?_, ?_, ?_⟩
  · simp only [roundtripSample, jsonWellFormed_obj, jsonWellFormed_arr,
      jsonWellFormed, List.all_cons, List.all_nil, List.map_cons, List.map_nil]
    decide
  · simp only [roundtripSample, camelCaseKeys_obj, camelCaseKeys_arr,
      camelCaseKeys, List.all_cons, List.all_nil]
    decide
  · exact c4_parse_serialize_roundtrip roundtripSample (by
      simp only [roundtripSample, jsonWellFormed_obj, jsonWellFormed_arr,
        jsonWellFormed, List.all_cons, List.all_nil, List.map_cons, List.map_nil]
      decide) (by
      simp only [roundtripSample, camelCaseKeys_obj, camelCaseKeys_arr,
        camelCaseKeys, List.all_cons, List.all_nil]
      decide)

/-!
Embedding of `src/generate-path.ts` (`generatePath`, copied by the repo
from `@remix-run/router`).  JS strings are handled through their
character lists, with the JS operations (`split(/\/+/)`, the
`^:(\w+)(\??)$` segment match, `replace(/\?$/g, "")`, `replace(/\*$/,
"/*")`) implemented structurally.  The parameter mapping `params` is
embedded as a lookup function `String → Option String`; `none` plays the
role of a `null`/`undefined`/absent entry (`param == null` in the JS
source does not distinguish them either).
-/

/-- Parameter mapping supplied to the path templater. -/
def Params : Type := String → Option String

/-- Split a character list at every occurrence of `sep` (one split per
separator character, like `String.prototype.split` with a plain string). -/
def splitOnChar (sep : Char) : List Char → List (List Char)
  | [] => [[]]
  | c :: rest =>
      if c = sep then [] :: splitOnChar sep rest
      else
        match splitOnChar sep rest with
        | [] => [[c]]
        | s :: ss => (c :: s) :: ss

/-- Keep the final piece, drop the empty pieces before it.  Applied to the
tail of a single-slash split this turns it into the JS `split(/\/+/)`
result: runs of slashes collapse, but a leading or trailing empty piece
survives. -/
def keepLastDropEmpty : List String → List String
  | [] => []
  | [s] => [s]
  | s :: s2 :: rest =>
      if s = "" then keepLastDropEmpty (s2 :: rest)
      else s :: keepLastDropEmpty (s2 :: rest)

/-- JS `path.split(/\/+/)`: split on maximal runs of slashes. -/
def splitSlashRuns (s : String) : List String :=
  match (splitOnChar '/' s.data).map (fun cs => String.mk cs) with
  | [] => []
  | x :: xs => x :: keepLastDropEmpty xs

/-- A `\w` word character, as in the JS regex `^:(\w+)(\??)$`. -/
def isWordChar (c : Char) : Bool := c.isAlpha || c.isDigit || c = '_'

/-- Match a path segment against `^:(\w+)(\??)$`, returning the captured
parameter key and whether the optional `?` marker is present. -/
def matchParamKey (seg : String) : Option (String × Bool) :=
  match seg.data with
  | ':' :: rest =>
      if rest.getLast? == some '?' then
        if rest.dropLast ≠ [] ∧ rest.dropLast.all isWordChar then
          some (String.mk rest.dropLast, true)
        else none
      else
        if rest ≠ [] ∧ rest.all isWordChar then some (String.mk rest, false)
        else none
  | _ => none

/-- `segment.replace(/\?$/g, "")`: strip one trailing question mark from a
static segment. -/
def stripTrailingQuestion (seg : String) : String :=
  if seg.data.getLast? == some '?' then String.mk seg.data.dropLast else seg

/-- The body of the `.map` callback in `generatePath`: resolve one segment,
knowing whether it is the last one.  The result is the JS value produced by
the callback — `none` embeds `null`/`undefined` (a missing splat value),
which the later `.filter((segment) => !!segment)` drops just like `""`. -/
def resolveSegment (p : Params) (isLast : Bool) (seg : String) :
    Except String (Option String) :=
  if isLast ∧ seg = "*" then .ok (p "*")
  else
    match matchParamKey seg with
    | some (key, true) => .ok (some ((p key).getD ""))
    | some (key, false) =>
        match p key with
        | none => .error ("Missing \":" ++ key ++ "\" param")
        | some v => .ok (some v)
    | none => .ok (some (stripTrailingQuestion seg))

/-- Resolve all segments left to right, failing at the first missing
required parameter, and marking the final segment as last. -/
def resolveSegments (p : Params) : List String → Except String (List (Option String))
  | [] => .ok []
  | s :: rest =>
      match resolveSegment p rest.isEmpty s with
      | .error e => .error e
      | .ok v =>
          match resolveSegments p rest with
          | .error e => .error e
          | .ok vs => .ok (v :: vs)

/-- The `path.replace(/\*$/, "/*")` normalization applied when the template
ends in a bare `*` that does not follow a slash. -/
def normalizeStar (path : String) : String :=
  if path.data.getLast? == some '*' ∧ path ≠ "*" ∧
      ¬ (path.data.reverse.take 2 = ['*', '/']) then
    String.mk path.data.dropLast ++ "/*"
  else path

/-- Join segments with single slashes (`segments.join("/")`). -/
def joinSlash : List String → String
  | [] => ""
  | [s] => s
  | s :: s2 :: rest => s ++ "/" ++ joinSlash (s2 :: rest)

/-- `generatePath` from `src/generate-path.ts`: normalize a trailing bare
`*`, split on slash runs, resolve each segment (applying the splat only on
the last segment), drop empty results, join with `/`, and re-apply the
leading and trailing slash of the (normalized) template.  Throwing the
`invariant` error is embedded as `Except.error` with the same message. -/
def generatePath (originalPath : String) (p : Params) : Except String String :=
  match resolveSegments p (splitSlashRuns (normalizeStar originalPath)) with
  | .error e => .error e
  | .ok vals =>
      .ok ((if (normalizeStar originalPath).data.head? == some '/' then "/" else "") ++
        joinSlash ((vals.filterMap id).filter (fun s => s ≠ "")) ++
        (if (normalizeStar originalPath).data.getLast? == some '/' then "/" else ""))

/-!
Specification-side description of the path templater, written from the
spec's wording: the set of required named parameters of a template, the
per-segment substitution, and the prefix/suffix slashes of the original
template.  The claim theorems relate `generatePath` to these.
-/

/-- All segments the templater iterates over (after the trailing-star
normalization and the slash-run split). -/
def templateSegments (t : String) : List String :=
  splitSlashRuns (normalizeStar t)

/-- The required parameter key of a segment, if the segment is a required
(non-optional) `:name` parameter. -/
def requiredKeyOf (seg : String) : Option String :=
  match matchParamKey seg with
  | some (k, false) => some k
  | _ => none

/-- The required named parameters of a template, in segment order. -/
def requiredParamKeys (t : String) : List String :=
  (templateSegments t).filterMap requiredKeyOf

/-- Substitution of a single segment, assuming no required parameter is
missing: the last-position wildcard takes the `"*"` entry, a `:name` or
`:name?` parameter takes its entry (absent resolving to the empty
string), and a static segment passes through with a trailing `?`
stripped.  `none` (a missing wildcard value) and `""` are dropped later. -/
def resolveOk (p : Params) (isLast : Bool) (seg : String) : Option String :=
  if isLast ∧ seg = "*" then p "*"
  else
    match matchParamKey seg with
    | some (key, _) => some ((p key).getD "")
    | none => some (stripTrailingQuestion seg)

/-- Map over a list while telling the function whether it is looking at
the final element. -/
def mapWithLast {α β : Type} (f : Bool → α → β) : List α → List β
  | [] => []
  | s :: rest => f rest.isEmpty s :: mapWithLast f rest

/-- Leading slash of the original template. -/
def leadSlash (t : String) : String :=
  if t.data.head? == some '/' then "/" else ""

/-- Trailing slash of the original template. -/
def trailSlash (t : String) : String :=
  if t.data.getLast? == some '/' then "/" else ""

/-- The substituted segments of a template: every segment resolved, with
empty and missing results dropped. -/
def substitutedSegments (t : String) (p : Params) : List String :=
  ((mapWithLast (resolveOk p) (templateSegments t)).filterMap id).filter
    (fun s => s ≠ "")


theorem matchParamKey_star : matchParamKey "*" = none := rfl

theorem resolveSegments_cons (p : Params) (s : String) (rest : List String) :
    resolveSegments p (s :: rest) =
      (match resolveSegment p rest.isEmpty s with
       | .error e => .error e
       | .ok v =>
          match resolveSegments p rest with
          | .error e => .error e
          | .ok vs => .ok (v :: vs)) := rfl

theorem resolveSegment_error_iff (p : Params) (b : Bool) (seg : String) :
    (∃ e, resolveSegment p b seg = .error e) ↔
      ∃ k, matchParamKey seg = some (k, false) ∧ p k = none := by
  unfold resolveSegment
  split
  · rename_i h
    constructor
    · rintro ⟨e, he⟩
      simp at he
    · rintro ⟨k, hk, -⟩
      rw [h.2, matchParamKey_star] at hk
      cases hk
  · rcases hm : matchParamKey seg with - | ⟨k, opt⟩
    · simp [hm]
    · cases opt
      · rcases hp : p k with - | v
        · simp [hm, hp]
        · simp [hm, hp]
      · simp [hm]

theorem resolveSegment_ok (p : Params) (b : Bool) (seg : String)
    (h : ∀ k, matchParamKey seg = some (k, false) → p k ≠ none) :
    resolveSegment p b seg = .ok (resolveOk p b seg) := by
  unfold resolveSegment resolveOk
  split
  · rfl
  · rcases hm : matchParamKey seg with - | ⟨k, opt⟩
    · simp [hm]
    · cases opt
      · rcases hp : p k with - | v
        · exact absurd hp (h k hm)
        · simp [hm, hp]
      · simp [hm]

theorem resolveSegments_error_iff (p : Params) (l : List String) :
    (∃ e, resolveSegments p l = .error e) ↔
      ∃ seg ∈ l, ∃ k, matchParamKey seg = some (k, false) ∧ p k = none := by
  induction l with
  | nil =>
    constructor
    · rintro ⟨e, he⟩
      simp [resolveSegments] at he
    · rintro ⟨seg, hseg, -⟩
      simp at hseg
  | cons s rest ih =>
    rcases hr : resolveSegment p rest.isEmpty s with e | v
    · constructor
      · intro _
        obtain ⟨k, hk, hpk⟩ := (resolveSegment_error_iff p rest.isEmpty s).mp ⟨e, hr⟩
        exact ⟨s, List.mem_cons_self s rest, k, hk, hpk⟩
      · intro _
        exact ⟨e, by rw [resolveSegments_cons, hr]⟩
    · rcases hrs : resolveSegments p rest with e2 | vs
      · constructor
        · intro _
          obtain ⟨seg, hseg, hk⟩ := ih.mp ⟨e2, hrs⟩
          exact ⟨seg, List.mem_cons_of_mem s hseg, hk⟩
        · intro _
          exact ⟨e2, by rw [resolveSegments_cons, hr, hrs]⟩
      · constructor
        · rintro ⟨e, he⟩
          rw [resolveSegments_cons, hr, hrs] at he
          simp at he
        · rintro ⟨seg, hseg, k, hk, hpk⟩
          rcases List.mem_cons.mp hseg with h1 | h2
          · subst h1
            obtain ⟨e, he⟩ :=
              (resolveSegment_error_iff p rest.isEmpty seg).mpr ⟨k, hk, hpk⟩
            rw [he] at hr
            simp at hr
          · obtain ⟨e, he⟩ := ih.mpr ⟨seg, h2, k, hk, hpk⟩
            rw [he] at hrs
            simp at hrs

theorem resolveSegments_ok (p : Params) (l : List String)
    (h : ∀ seg ∈ l, ∀ k, matchParamKey seg = some (k, false) → p k ≠ none) :
    resolveSegments p l = .ok (mapWithLast (resolveOk p) l) := by
  induction l with
  | nil => rfl
  | cons s rest ih =>
    rw [resolveSegments_cons,
      resolveSegment_ok p rest.isEmpty s (h s (List.mem_cons_self s rest)),
      ih (fun seg hseg k hk => h seg (List.mem_cons_of_mem s hseg) k hk)]
    rfl

theorem data_mk (l : List Char) : (String.mk l).data = l := rfl

theorem requiredKeyOf_eq_some (seg k : String) (h : requiredKeyOf seg = some k) :
    matchParamKey seg = some (k, false) := by
  unfold requiredKeyOf at h
  rcases hm : matchParamKey seg with - | ⟨k2, opt⟩
  · rw [hm] at h
    simp at h
  · cases opt
    · rw [hm] at h
      simp at h
      subst h
      rfl
    · rw [hm] at h
      simp at h

theorem matchParamKey_chars (seg k : String) (b : Bool)
    (h : matchParamKey seg = some (k, b)) :
    k.data ≠ [] ∧ k.data.all isWordChar = true := by
  unfold matchParamKey at h
  split at h
  · split at h
    · split at h
      · rename_i hcond
        simp only [Option.some.injEq, Prod.mk.injEq] at h
        obtain ⟨hk, -⟩ := h
        subst hk
        exact ⟨hcond.1, hcond.2⟩
      · simp at h
    · split at h
      · rename_i hcond
        simp only [Option.some.injEq, Prod.mk.injEq] at h
        obtain ⟨hk, -⟩ := h
        subst hk
        exact ⟨hcond.1, hcond.2⟩
      · simp at h
  · simp at h

theorem generatePath_error_iff (t : String) (p : Params) :
    (∃ e, generatePath t p = .error e) ↔
      ∃ k, k ∈ requiredParamKeys t ∧ p k = none := by
  constructor
  · rintro ⟨e, he⟩
    rcases hr : resolveSegments p (splitSlashRuns (normalizeStar t)) with e2 | vals
    · obtain ⟨seg, hseg, k, hk, hpk⟩ :=
        (resolveSegments_error_iff p (splitSlashRuns (normalizeStar t))).mp ⟨e2, hr⟩
      refine ⟨k, ?_, hpk⟩
      unfold requiredParamKeys
      exact List.mem_filterMap.mpr ⟨seg, hseg, by unfold requiredKeyOf; rw [hk]⟩
    · unfold generatePath at he
      rw [hr] at he
      simp at he
  · rintro ⟨k, hk, hpk⟩
    unfold requiredParamKeys at hk
    obtain ⟨seg, hseg, hkey⟩ := List.mem_filterMap.mp hk
    have hmk : matchParamKey seg = some (k, false) := requiredKeyOf_eq_some seg k hkey
    obtain ⟨e, he⟩ := (resolveSegments_error_iff p (templateSegments t)).mpr
      ⟨seg, hseg, k, hmk, hpk⟩
    refine ⟨e, ?_⟩
    unfold generatePath
    rw [show splitSlashRuns (normalizeStar t) = templateSegments t from rfl, he]

theorem normalizeStar_head (t : String) :
    (normalizeStar t).data.head? = t.data.head? := by
  obtain ⟨d⟩ := t
  unfold normalizeStar
  split
  · rename_i h
    obtain ⟨h1, h2, h3⟩ := h
    rw [String.data_append, data_mk, data_mk]
    cases d with
    | nil => simp at h1
    | cons a tl =>
      cases tl with
      | nil =>
        rw [data_mk] at h1
        simp at h1
        subst h1
        exact absurd rfl h2
      | cons b tl2 =>
        simp
  · rfl

theorem normalizeStar_last_beq (t : String) :
    ((normalizeStar t).data.getLast? == some '/') =
      (t.data.getLast? == some '/') := by
  obtain ⟨d⟩ := t
  unfold normalizeStar
  split
  · rename_i h
    obtain ⟨h1, h2, h3⟩ := h
    rw [String.data_append, data_mk, data_mk]
    have hlast : (d.dropLast ++ "/*".data).getLast? = some '*' := by
      rw [show ("/*".data : List Char) = ['/'] ++ ['*'] from rfl]
      rw [← List.append_assoc]
      exact List.getLast?_concat _
    rw [hlast]
    rw [data_mk] at h1
    rw [beq_iff_eq] at h1
    rw [h1]
  · rfl

theorem mapWithLast_eq {α β : Type} (f : Bool → α → β) (l : List α) (x : α)
    (h : l.getLast? = some x) :
    mapWithLast f l = l.dropLast.map (f false) ++ [f true x] := by
  induction l with
  | nil => simp at h
  | cons s rest ih =>
    cases rest with
    | nil =>
      simp at h
      subst h
      rfl
    | cons s2 rest2 =>
      rw [List.getLast?_cons_cons] at h
      rw [show mapWithLast f (s :: s2 :: rest2) =
          f (s2 :: rest2).isEmpty s :: mapWithLast f (s2 :: rest2) from rfl]
      rw [ih h]
      simp

theorem generatePath_ok_eq (t : String) (p : Params)
    (h : ∀ k, k ∈ requiredParamKeys t → p k ≠ none) :
    generatePath t p =
      .ok (leadSlash t ++ joinSlash (substitutedSegments t p) ++ trailSlash t) := by
  have hseg : ∀ seg ∈ templateSegments t, ∀ k,
      matchParamKey seg = some (k, false) → p k ≠ none := by
    intro seg hs k hk
    apply h
    unfold requiredParamKeys
    exact List.mem_filterMap.mpr ⟨seg, hs, by unfold requiredKeyOf; rw [hk]⟩
  unfold generatePath
  rw [show splitSlashRuns (normalizeStar t) = templateSegments t from rfl]
  rw [resolveSegments_ok p (templateSegments t) hseg]
  unfold leadSlash trailSlash substitutedSegments
  rw [show (normalizeStar t).data.head? = t.data.head? from normalizeStar_head t]
  rw [normalizeStar_last_beq t]

/-- C5: for every path template and parameter mapping, `generatePath`
fails with a missing-parameter error if and only if some required
(non-optional) `:name` parameter has a null/undefined/absent entry; when
every required parameter is present, the output is the template's
segments in order — literals passed through (trailing `?` stripped),
parameters substituted, an absent optional parameter becoming the empty
string — with empty segments dropped, joined by `/`, and the leading and
trailing slash of the original template preserved. -/
theorem c5_generate_path (t : String) (p : Params) :
    ((∃ e, generatePath t p = .error e) ↔
      ∃ k, k ∈ requiredParamKeys t ∧ p k = none)
    ∧ ((∀ k, k ∈ requiredParamKeys t → p k ≠ none) →
      generatePath t p =
        .ok (leadSlash t ++ joinSlash (substitutedSegments t p) ++ trailSlash t)) :=
  ⟨generatePath_error_iff t p, generatePath_ok_eq t p⟩

/-- Concrete parameter mapping used by the C5 witness. -/
def paramsSample : Params := fun k => if k = "id" then some "7" else none

/-- Witness for C5 at a concrete template and mapping. -/
theorem c5_generate_path_witness :
    generatePath "/users/:id" paramsSample = .ok "/users/7" := by
  have h := (c5_generate_path "/users/:id" paramsSample).2 (by decide)
  rw [h]
  rfl

/-- C9: for every template whose last segment is the wildcard `*`, a
mapping with no `"*"` entry does not make `generatePath` fail: the
missing-parameter error is raised exactly for the required `:name`
parameters (never for the wildcard, which is not a required key of any
template), and on success the wildcard segment resolves to an empty
value and is dropped — the output is built from the remaining segments
only. -/
theorem c9_wildcard_missing_star (t : String) (p : Params)
    (hlast : (templateSegments t).getLast? = some "*")
    (hstar : p "*" = none) :
    "*" ∉ requiredParamKeys t
    ∧ ((∃ e, generatePath t p = .error e) ↔
        ∃ k, k ∈ requiredParamKeys t ∧ p k = none)
    ∧ ((∀ k, k ∈ requiredParamKeys t → p k ≠ none) →
      generatePath t p =
        .ok (leadSlash t ++
          joinSlash ((((templateSegments t).dropLast.map
            (fun seg => resolveOk p false seg)).filterMap id).filter
              (fun s => s ≠ "")) ++
          trailSlash t)) := by
  refine ⟨?_, generatePath_error_iff t p, ?_⟩
  · intro hmem
    unfold requiredParamKeys at hmem
    obtain ⟨seg, -, hkey⟩ := List.mem_filterMap.mp hmem
    have hmk := requiredKeyOf_eq_some seg "*" hkey
    obtain ⟨-, hword⟩ := matchParamKey_chars seg "*" false hmk
    simp [isWordChar] at hword
  · intro h
    rw [generatePath_ok_eq t p h]
    unfold substitutedSegments
    rw [mapWithLast_eq (resolveOk p) (templateSegments t) "*" hlast]
    rw [List.filterMap_append]
    have hstar' : resolveOk p true "*" = none := by
      unfold resolveOk
      rw [if_pos ⟨rfl, rfl⟩]
      exact hstar
    rw [hstar']
    simp

/-- Witness for C9 at a concrete wildcard template. -/
theorem c9_wildcard_missing_star_witness :
    generatePath "/files/*" (fun _ => none) = .ok "/files" := by
  have h := (c9_wildcard_missing_star "/files/*" (fun _ => none)
    (by decide) rfl).2.2 (by decide)
  rw [h]
  rfl

/-!
Embedding of `getSearchParams` (the query encoder of `src/index.ts`).
`URLSearchParams` is embedded as an ordered list of key/value pairs:
`append` pushes at the end; `set` overwrites the value at the first
occurrence of the key, deletes the other occurrences, and appends if the
key is absent — the WHATWG `URLSearchParams.set` semantics.
-/

/-- Decimal digits of a natural number (fuel-based, structural). -/
def natToStrAux : Nat → Nat → List Char → List Char
  | 0, _, acc => acc
  | fuel + 1, n, acc =>
      if n < 10 then Char.ofNat (48 + n) :: acc
      else natToStrAux fuel (n / 10) (Char.ofNat (48 + n % 10) :: acc)

/-- Decimal rendering of a natural number. -/
def natToStr (n : Nat) : String := String.mk (natToStrAux (n + 1) n [])

/-- Decimal rendering of an integer. -/
def intToStr (i : Int) : String :=
  if i < 0 then "-" ++ natToStr i.natAbs else natToStr i.natAbs

/-- Does JS array-join render this element as the empty string? -/
def isNullish : Json → Bool
  | .null => true
  | .other => true
  | _ => false

/-- Join with commas (`Array.prototype.join(",")`). -/
def joinComma : List String → String
  | [] => ""
  | [s] => s
  | s :: s2 :: rest => s ++ "," ++ joinComma (s2 :: rest)

/-- Modelled from the spec: the JS `String(value)` coercion used by the
query encoder, on the embedded value universe (integers render in
decimal, arrays join their elements with commas rendering `null` as
empty, plain objects render as `[object Object]`; `String()` on a symbol
throws in JS and is out of the claims' scope, embedded as `""`). -/
def jsToString : Json → String
  | .null => "null"
  | .boolean b => if b then "true" else "false"
  | .num n => intToStr n
  | .str s => s
  | .obj _ => "[object Object]"
  | .other => ""
  | .arr items =>
      joinComma (items.attach.map (fun x =>
        if isNullish x.1 then "" else jsToString x.1))
termination_by j => sizeOf j
decreasing_by
  have := List.sizeOf_lt_of_mem x.2
  simp only [Json.arr.sizeOf_spec]
  omega

/-- Replace the value at the first occurrence of `k` and delete the other
occurrences (the in-place part of `URLSearchParams.set`). -/
def setParamAux : List (String × String) → String → String → List (String × String)
  | [], _, _ => []
  | r :: rest, k, v =>
      if r.1 == k then (k, v) :: rest.filter (fun r2 => r2.1 ≠ k)
      else r :: setParamAux rest k v

/-- `url.searchParams.set(key, value)`. -/
def setParam (q : List (String × String)) (k v : String) :
    List (String × String) :=
  if q.any (fun r => r.1 == k) then setParamAux q k v else q ++ [(k, v)]

/-- `url.searchParams.append(key, value)` is `q ++ [(k, v)]`; this is the
`switch (typeof value)` statement of `getSearchParams`, encoding one
validated top-level entry into the query list. -/
def encodeSearchEntry (q : List (String × String)) (k : String) :
    Json → List (String × String)
  | .str s => setParam q k s
  | .boolean b => setParam q k (jsToString (.boolean b))
  | .num n => setParam q k (jsToString (.num n))
  | .null => q
  | .arr items => items.foldl (fun acc it => acc ++ [(k, jsToString it)]) q
  | .obj fields =>
      fields.foldl
        (fun acc f => acc ++ [(k ++ "[" ++ f.1 ++ "]", jsToString f.2)]) q
  | .other => q

/-- `Object.entries` on the embedded values: field list of an object,
index/character pairs of a string, empty for the other primitives
(`Object.entries(null)` throws in JS and is out of the claims' scope). -/
def jsEntries : Json → List (String × Json)
  | .obj fields => fields
  | .str s => s.data.enum.map (fun q => (natToStr q.1, Json.str (String.mk [q.2])))
  | _ => []

theorem foldl_append_eq_map {α β : Type} (l : List α) (g : α → β) :
    ∀ q : List β, l.foldl (fun acc it => acc ++ [g it]) q = q ++ l.map g := by
  induction l with
  | nil => intro q; simp
  | cons a tl ih =>
    intro q
    rw [List.foldl_cons, ih (q ++ [g a])]
    simp

/-- C8: the query encoder branches per top-level key on the value's
runtime type — a string, boolean or number overwrites `key=String(value)`
via `set`; an array appends `key=String(element)` per element in element
order (duplicate keys); a plain object appends `key[k]=String(v)` per own
entry in entry order; `null` and any other type contribute nothing. -/
theorem c8_search_encoding (q : List (String × String)) (k : String) :
    (∀ s, encodeSearchEntry q k (.str s) = setParam q k s)
    ∧ (∀ b, encodeSearchEntry q k (.boolean b) =
        setParam q k (jsToString (.boolean b)))
    ∧ (∀ n, encodeSearchEntry q k (.num n) =
        setParam q k (jsToString (.num n)))
    ∧ (∀ items, encodeSearchEntry q k (.arr items) =
        q ++ items.map (fun it => (k, jsToString it)))
    ∧ (∀ fields, encodeSearchEntry q k (.obj fields) =
        q ++ fields.map (fun f => (k ++ "[" ++ f.1 ++ "]", jsToString f.2)))
    ∧ encodeSearchEntry q k .null = q
    ∧ encodeSearchEntry q k .other = q := by
  refine ⟨fun s => rfl, fun b => rfl, fun n => rfl, ?_, ?_, rfl, rfl⟩
  · intro items
    exact foldl_append_eq_map items (fun it => (k, jsToString it)) q
  · intro fields
    exact foldl_append_eq_map fields
      (fun f => (k ++ "[" ++ f.1 ++ "]", jsToString f.2)) q

/-!
Embedding of the request engine (`createAPIClient().request` in
`src/index.ts`).  The opaque capabilities are embedded as follows:

* a zod schema is a validation function `Json → Except String Json`
  (`parseAsync`: transformed value or a validation error);
* the HTTP transport is an environment input: the `Response` the
  `fetch` call would produce (status, `Content-Type` header, and the
  wire body as a JSON value, `none` standing for text that makes
  `JSON.parse` fail);
* the measurement hook returns the thunk's outcome unchanged (the
  default `measure` does; its timing/logging side effects are out of
  scope);
* `URL` resolution against the `baseURL` is kept abstract — the embedded
  request carries the `generatePath(...).slice(1)` string and a query
  pair list;
* header merging and the credentials hook mutate only the URL/header
  state, which no claim observes; they sit between the search step and
  the signal check and are omitted from the embedding;
* the `typeof endpoint !== "string"` guard cannot fire in the embedding,
  where the endpoint is a `String` by type.

The execution additionally records a trace of events: schema-validation
steps, the path-templater run, the transport dispatch, and the
body-text read.
-/

/-- A zod schema used as an opaque validation capability. -/
def Schema : Type := Json → Except String Json

/-- The `expects` field of an endpoint: mandatory success schema,
optional failure schema. -/
structure Expects where
  success : Schema
  failure : Option Schema

/-- An endpoint definition (`EndpointOptions` in `src/index.ts`): the
current code has no route-params schema — route parameters are only
typed statically via `ParseUrlParams`. -/
structure EndpointOptions where
  search : Option Schema
  body : Option Schema
  expects : Expects

/-- The client configuration, restricted to what the claims observe. -/
structure APIConfig where
  endpoints : List (String × EndpointOptions)

/-- The per-call options: `variables.params` / `variables.search` /
`variables.body` (each `none` when the key is absent), and the abort
signal (`none` = no signal, `some b` = a signal whose `aborted` flag is
`b`). -/
structure CallOptions where
  params : Option Params
  search : Option Json
  body : Option Json
  signal : Option Bool

/-- The transport's response: status code, `Content-Type` header value,
and the wire-level JSON body (`none` = body text that fails to parse). -/
structure Response where
  status : Nat
  contentType : Option String
  body : Option Json

/-- Observable events of one `request` execution. -/
inductive Ev where
  | validateParams : Ev
  | expandPath : Ev
  | validateSearch : Ev
  | validateBody : Ev
  | dispatch : Ev
  | readBody : Ev
deriving DecidableEq

/-- The error taxonomy of the engine, carrying exactly the data the
thrown messages name. -/
inductive ReqError where
  | missingEndpoint (endpoint : String) : ReqError
  | invalidEndpoint (endpoint : String) : ReqError
  | missingParam (message : String) : ReqError
  | validationError (detail : String) : ReqError
  | aborted : ReqError
  | nonJson (endpoint : String) : ReqError
  | invalidJson (endpoint : String) : ReqError
  | missingFailureSchema (endpoint : String) : ReqError
  | serverError (endpoint : String) (status : Nat) : ReqError

/-- `endpoint in configuration.endpoints` plus the lookup. -/
def lookupEndpoint (cfg : APIConfig) (endpoint : String) : Option EndpointOptions :=
  (cfg.endpoints.find? (fun p => p.1 == endpoint)).map (fun p => p.2)

/-- The `RequestMethodSchema` enum. -/
def methodNames : List String := ["GET", "POST", "PUT", "PATCH", "DELETE"]

/-- `z.tuple([RequestMethodSchema, z.string()]).parse(endpoint.split(" "))`:
exactly two space-separated parts, the first a known method. -/
def parseMethodPath (endpoint : String) : Except ReqError (String × String) :=
  match (splitOnChar ' ' endpoint.data).map (fun cs => String.mk cs) with
  | [m, pathStr] =>
      if methodNames.contains m then .ok (m, pathStr)
      else .error (.invalidEndpoint endpoint)
  | _ => .error (.invalidEndpoint endpoint)

/-- The default `{}` route-params object of `generatePath`. -/
def emptyParams : Params := fun _ => none

/-- Result of the URL-building steps (`getURL` + `getSearchParams`). -/
structure BuiltURL where
  route : EndpointOptions
  method : String
  urlPath : String
  query : List (String × String)

/-- `getSearchParams`: a no-op unless the caller supplied search
variables and the endpoint declares a search schema; otherwise validate
then encode every entry of the validated object. -/
def searchPhase (route : EndpointOptions) (call : CallOptions) :
    Except ReqError (List (String × String)) × List Ev :=
  match call.search with
  | none => (.ok [], [])
  | some sv =>
      match route.search with
      | none => (.ok [], [])
      | some schema =>
          match schema sv with
          | .error e => (.error (.validationError e), [.validateSearch])
          | .ok validated =>
              (.ok ((jsEntries validated).foldl
                (fun acc kv => encodeSearchEntry acc kv.1 kv.2) []),
                [.validateSearch])

/-- Steps of `request` up to and including the URL construction:
registry lookup, `"METHOD path"` parsing, `getURL` (the Path Templater
applied to the caller's raw params — there is no params schema), and
`getSearchParams`. -/
def buildURLPhase (cfg : APIConfig) (endpoint : String) (call : CallOptions) :
    Except ReqError BuiltURL × List Ev :=
  match lookupEndpoint cfg endpoint with
  | none => (.error (.missingEndpoint endpoint), [])
  | some route =>
      match parseMethodPath endpoint with
      | .error e => (.error e, [])
      | .ok (m, pathStr) =>
          match generatePath pathStr (call.params.getD emptyParams) with
          | .error msg => (.error (.missingParam msg), [.expandPath])
          | .ok gp =>
              match searchPhase route call with
              | (.error e, evs) => (.error e, .expandPath :: evs)
              | (.ok q, evs) =>
                  (.ok ⟨route, m, String.mk gp.data.tail, q⟩, .expandPath :: evs)

/-- `getBody`, guarded by `method !== "GET" && "body" in options.variables`:
validate the body against the body schema when one is declared and encode
it through the wire-casing serializer; an endpoint without a body schema
yields no body and no error. -/
def bodyPhase (route : EndpointOptions) (m : String) (call : CallOptions) :
    Except ReqError (Option Json) × List Ev :=
  if m ≠ "GET" then
    match call.body with
    | some bv =>
        match route.body with
        | some schema =>
            match schema bv with
            | .error e => (.error (.validationError e), [.validateBody])
            | .ok valid => (.ok (some (serialize valid)), [.validateBody])
        | none => (.ok none, [])
    | none => (.ok none, [])
  else (.ok none, [])

/-- The fully built outgoing request. -/
structure Prepared where
  route : EndpointOptions
  method : String
  urlPath : String
  query : List (String × String)
  body : Option Json

/-- Everything `request` does before dispatching: build the URL, check
the abort signal (an already-aborted signal throws `AbortError` before
any dispatch), then attach the body. -/
def prepare (cfg : APIConfig) (endpoint : String) (call : CallOptions) :
    Except ReqError Prepared × List Ev :=
  match buildURLPhase cfg endpoint call with
  | (.error e, evs) => (.error e, evs)
  | (.ok b, evs) =>
      if call.signal = some true then (.error .aborted, evs)
      else
        match bodyPhase b.route b.method call with
        | (.error e, evs2) => (.error e, evs ++ evs2)
        | (.ok payload, evs2) =>
            (.ok ⟨b.route, b.method, b.urlPath, b.query, payload⟩, evs ++ evs2)

/-- Prefix test on character lists. -/
def isPrefixChars : List Char → List Char → Bool
  | [], _ => true
  | _ :: _, [] => false
  | a :: as, b :: bs => a == b && isPrefixChars as bs

/-- Substring test on character lists (`String.prototype.includes`). -/
def containsChars (pat : List Char) : List Char → Bool
  | [] => isPrefixChars pat []
  | c :: rest => isPrefixChars pat (c :: rest) || containsChars pat rest

/-- `Content-Type` classification: the header must contain `json`. -/
def containsJson (s : String) : Bool := containsChars "json".data s.data

/-- `response.headers.get("content-type")?.includes("json")`: an absent
header also fails the check. -/
def respIsJson (ct : Option String) : Bool :=
  match ct with
  | none => false
  | some s => containsJson s

/-- The status-code classification of `request`: 2xx validates against
the success schema and wraps the result in `{status: "success", data}`
exactly when a failure schema is configured; 4xx without a failure
schema is the missing-failure-schema error, with one it validates and
returns `{status: "failure", data, code}`; every other status is the
server error naming endpoint and status. -/
def classifyResponse (endpoint : String) (route : EndpointOptions)
    (status : Nat) (body : Json) : Except ReqError Json :=
  if 200 ≤ status ∧ status < 300 then
    match route.expects.failure with
    | none => (route.expects.success body).mapError .validationError
    | some _ =>
        ((route.expects.success body).mapError .validationError).map
          (fun d => .obj [("status", .str "success"), ("data", d)])
  else if 400 ≤ status ∧ status < 500 then
    match route.expects.failure with
    | none => .error (.missingFailureSchema endpoint)
    | some fs =>
        ((fs body).mapError .validationError).map
          (fun d => .obj [("status", .str "failure"), ("data", d),
            ("code", .num (Int.ofNat status))])
  else .error (.serverError endpoint status)

/-- The measured thunk of `request`: dispatch, check the content type
(before reading the body), read and parse the body through the
wire-casing `parse`, then classify by status. -/
def handleResponse (endpoint : String) (route : EndpointOptions)
    (resp : Response) : Except ReqError Json × List Ev :=
  if respIsJson resp.contentType = false then
    (.error (.nonJson endpoint), [.dispatch])
  else
    match resp.body with
    | none => (.error (.invalidJson endpoint), [.dispatch, .readBody])
    | some wire =>
        (classifyResponse endpoint route resp.status (parse wire),
          [.dispatch, .readBody])

/-- `request(endpoint, options)` against a transport that would answer
`resp`: prepare the request and, if that succeeded, run the measured
dispatch/parse/classify thunk.  Returns the outcome together with the
event trace. -/
def request (cfg : APIConfig) (endpoint : String) (call : CallOptions)
    (resp : Response) : Except ReqError Json × List Ev :=
  match prepare cfg endpoint call with
  | (.error e, evs) => (.error e, evs)
  | (.ok p, evs) =>
      match handleResponse endpoint p.route resp with
      | (r, evs2) => (r, evs ++ evs2)

/-! Which events each phase can emit, and how `request` decomposes. -/

theorem searchPhase_events (route : EndpointOptions) (call : CallOptions) :
    ∀ e ∈ (searchPhase route call).2, e = Ev.validateSearch := by
  unfold searchPhase
  rcases hcs : call.search with - | sv
  · simp
  · rcases hrs : route.search with - | schema
    · simp
    · rcases hv : schema sv with err | validated
      · simp [hv]
      · simp [hv]

theorem buildURLPhase_events (cfg : APIConfig) (endpoint : String)
    (call : CallOptions) :
    ∀ e ∈ (buildURLPhase cfg endpoint call).2,
      e = Ev.expandPath ∨ e = Ev.validateSearch := by
  unfold buildURLPhase
  rcases hle : lookupEndpoint cfg endpoint with - | route
  · simp
  · rcases hmp : parseMethodPath endpoint with err | ⟨m, pathStr⟩
    · simp [hmp]
    · rcases hgp : generatePath pathStr (call.params.getD emptyParams) with msg | gp
      · simp [hmp, hgp]
      · rcases hsp : searchPhase route call with ⟨r, evs⟩
        have hevs : ∀ e ∈ evs, e = Ev.validateSearch := by
          intro e he
          exact searchPhase_events route call e (by rw [hsp]; exact he)
        rcases r with err | q
        · simp only [hmp, hgp, hsp]
          intro e he
          rcases List.mem_cons.mp he with h1 | h2
          · exact Or.inl h1
          · exact Or.inr (hevs e h2)
        · simp only [hmp, hgp, hsp]
          intro e he
          rcases List.mem_cons.mp he with h1 | h2
          · exact Or.inl h1
          · exact Or.inr (hevs e h2)

theorem bodyPhase_events (route : EndpointOptions) (m : String)
    (call : CallOptions) :
    ∀ e ∈ (bodyPhase route m call).2, e = Ev.validateBody := by
  unfold bodyPhase
  split
  · rcases hcb : call.body with - | bv
    · simp
    · rcases hrb : route.body with - | schema
      · simp
      · rcases hv : schema bv with err | valid
        · simp [hv]
        · simp [hv]
  · simp

theorem prepare_events (cfg : APIConfig) (endpoint : String)
    (call : CallOptions) :
    ∀ e ∈ (prepare cfg endpoint call).2,
      e = Ev.expandPath ∨ e = Ev.validateSearch ∨ e = Ev.validateBody := by
  unfold prepare
  split
  · rename_i e1 evs1 heq
    intro ev he
    have := buildURLPhase_events cfg endpoint call ev (by rw [heq]; exact he)
    tauto
  · rename_i b1 evs1 heq
    split
    · intro ev he
      have := buildURLPhase_events cfg endpoint call ev (by rw [heq]; exact he)
      tauto
    · split
      · rename_i e2 evs2 heq2
        intro ev he
        rcases List.mem_append.mp he with h1 | h2
        · have := buildURLPhase_events cfg endpoint call ev (by rw [heq]; exact h1)
          tauto
        · have := bodyPhase_events b1.route b1.method call ev (by rw [heq2]; exact h2)
          tauto
      · rename_i pl evs2 heq2
        intro ev he
        rcases List.mem_append.mp he with h1 | h2
        · have := buildURLPhase_events cfg endpoint call ev (by rw [heq]; exact h1)
          tauto
        · have := bodyPhase_events b1.route b1.method call ev (by rw [heq2]; exact h2)
          tauto

theorem handleResponse_events (endpoint : String) (route : EndpointOptions)
    (resp : Response) :
    ∀ e ∈ (handleResponse endpoint route resp).2,
      e = Ev.dispatch ∨ e = Ev.readBody := by
  unfold handleResponse
  split
  · simp
  · rcases hrb : resp.body with - | wire
    · simp
    · simp

theorem request_events (cfg : APIConfig) (endpoint : String)
    (call : CallOptions) (resp : Response) :
    ∀ e ∈ (request cfg endpoint call resp).2,
      e = Ev.expandPath ∨ e = Ev.validateSearch ∨ e = Ev.validateBody ∨
        e = Ev.dispatch ∨ e = Ev.readBody := by
  unfold request
  rcases hp : prepare cfg endpoint call with ⟨r, evs⟩
  have hevs : ∀ e ∈ evs,
      e = Ev.expandPath ∨ e = Ev.validateSearch ∨ e = Ev.validateBody := by
    intro e he
    exact prepare_events cfg endpoint call e (by rw [hp]; exact he)
  rcases r with err | p
  · intro e he
    have := hevs e he
    tauto
  · rcases hh : handleResponse endpoint p.route resp with ⟨r2, evs2⟩
    have hevs2 : ∀ e ∈ evs2, e = Ev.dispatch ∨ e = Ev.readBody := by
      intro e he
      exact handleResponse_events endpoint p.route resp e (by rw [hh]; exact he)
    simp only [hh]
    intro e he
    rcases List.mem_append.mp he with h1 | h2
    · have := hevs e h1
      tauto
    · have := hevs2 e h2
      tauto

theorem request_of_prepared (cfg : APIConfig) (endpoint : String)
    (call : CallOptions) (resp : Response) (p : Prepared)
    (hprep : (prepare cfg endpoint call).1 = .ok p) :
    request cfg endpoint call resp =
      ((handleResponse endpoint p.route resp).1,
        (prepare cfg endpoint call).2 ++ (handleResponse endpoint p.route resp).2) := by
  unfold request
  rcases hpr : prepare cfg endpoint call with ⟨r, evs⟩
  rw [hpr] at hprep
  simp only at hprep
  rcases r with err | p2
  · simp at hprep
  · simp only [Except.ok.injEq] at hprep
    subst hprep
    rcases hh : handleResponse endpoint p2.route resp with ⟨r2, evs2⟩
    simp [hh]

theorem request_of_prepare_error (cfg : APIConfig) (endpoint : String)
    (call : CallOptions) (resp : Response) (e : ReqError)
    (h : (prepare cfg endpoint call).1 = .error e) :
    request cfg endpoint call resp = (.error e, (prepare cfg endpoint call).2) := by
  unfold request
  rcases hp : prepare cfg endpoint call with ⟨r, evs⟩
  rw [hp] at h
  simp only at h
  rcases r with err | p
  · simp only [Except.error.injEq] at h
    subst h
    simp
  · simp at h

/-- C1: for every endpoint and every response with a 2xx status (reached
with a JSON content type and a parseable body), `request` returns the
success-schema validation outcome directly when the endpoint declares no
failure schema, and wraps it as `{status: "success", data}` when it
declares one — for every 2xx status and every body alike, so the result
shape depends only on the endpoint configuration, never on the runtime
response. -/
theorem c1_2xx_result_shape (cfg : APIConfig) (endpoint : String)
    (call : CallOptions) (resp : Response) (p : Prepared) (wire : Json)
    (hprep : (prepare cfg endpoint call).1 = .ok p)
    (hct : respIsJson resp.contentType = true)
    (hwire : resp.body = some wire)
    (hst : 200 ≤ resp.status ∧ resp.status < 300) :
    (p.route.expects.failure = none →
      (request cfg endpoint call resp).1 =
        (p.route.expects.success (parse wire)).mapError ReqError.validationError)
    ∧ (∀ fs, p.route.expects.failure = some fs →
      (request cfg endpoint call resp).1 =
        ((p.route.expects.success (parse wire)).mapError
            ReqError.validationError).map
          (fun d => .obj [("status", .str "success"), ("data", d)])) := by
  rw [request_of_prepared cfg endpoint call resp p hprep]
  have hh : handleResponse endpoint p.route resp =
      (classifyResponse endpoint p.route resp.status (parse wire),
        [.dispatch, .readBody]) := by
    unfold handleResponse
    rw [if_neg (by rw [hct]; simp), hwire]
  rw [hh]
  unfold classifyResponse
  rw [if_pos hst]
  constructor
  · intro hf
    rw [hf]
  · intro fs hf
    rw [hf]

/-- C2: for every response with status 400–499 (reached with a JSON
content type and a parseable body), `request` throws the
missing-failure-schema error naming the endpoint when no failure schema
is declared, and otherwise returns `{status: "failure", data, code}`
from the failure-schema validation; for every status in no classified
range — below 200, 300–399, or 500 and above — it throws the
server-error naming the endpoint and the status code. -/
theorem c2_4xx_and_unclassified (cfg : APIConfig) (endpoint : String)
    (call : CallOptions) (resp : Response) (p : Prepared) (wire : Json)
    (hprep : (prepare cfg endpoint call).1 = .ok p)
    (hct : respIsJson resp.contentType = true)
    (hwire : resp.body = some wire) :
    ((400 ≤ resp.status ∧ resp.status < 500) →
      (p.route.expects.failure = none →
        (request cfg endpoint call resp).1 =
          .error (.missingFailureSchema endpoint))
      ∧ (∀ fs, p.route.expects.failure = some fs →
        (request cfg endpoint call resp).1 =
          ((fs (parse wire)).mapError ReqError.validationError).map
            (fun d => .obj [("status", .str "failure"), ("data", d),
              ("code", .num (Int.ofNat resp.status))])))
    ∧ (¬ (200 ≤ resp.status ∧ resp.status < 300) →
      ¬ (400 ≤ resp.status ∧ resp.status < 500) →
      (request cfg endpoint call resp).1 =
        .error (.serverError endpoint resp.status)) := by
  rw [request_of_prepared cfg endpoint call resp p hprep]
  have hh : handleResponse endpoint p.route resp =
      (classifyResponse endpoint p.route resp.status (parse wire),
        [.dispatch, .readBody]) := by
    unfold handleResponse
    rw [if_neg (by rw [hct]; simp), hwire]
  rw [hh]
  unfold classifyResponse
  constructor
  · intro h4
    rw [if_neg (by omega), if_pos h4]
    constructor
    · intro hf
      rw [hf]
    · intro fs hf
      rw [hf]
  · intro h2 h4
    rw [if_neg h2, if_neg h4]

/-- C6: for every response whose `Content-Type` header is absent or does
not contain the substring `json`, `request` fails with the non-JSON
error naming the endpoint and never reads the response body. -/
theorem c6_non_json_response (cfg : APIConfig) (endpoint : String)
    (call : CallOptions) (resp : Response) (p : Prepared)
    (hprep : (prepare cfg endpoint call).1 = .ok p)
    (hct : respIsJson resp.contentType = false) :
    (request cfg endpoint call resp).1 = .error (.nonJson endpoint)
    ∧ Ev.readBody ∉ (request cfg endpoint call resp).2 := by
  rw [request_of_prepared cfg endpoint call resp p hprep]
  have hh : handleResponse endpoint p.route resp =
      (.error (.nonJson endpoint), [.dispatch]) := by
    unfold handleResponse
    rw [if_pos hct]
  rw [hh]
  refine ⟨rfl, ?_⟩
  intro hmem
  rcases List.mem_append.mp hmem with h1 | h2
  · rcases prepare_events cfg endpoint call Ev.readBody h1 with h | h | h <;>
      exact Ev.noConfusion h
  · rcases List.mem_singleton.mp h2 with h
    exact Ev.noConfusion h

/-- Under a pre-aborted signal, `prepare` always fails, without running
the body phase. -/
theorem prepare_of_aborted (cfg : APIConfig) (endpoint : String)
    (call : CallOptions) (hsig : call.signal = some true) :
    (∃ e, (prepare cfg endpoint call).1 = .error e)
    ∧ (∀ b, (buildURLPhase cfg endpoint call).1 = .ok b →
        (prepare cfg endpoint call).1 = .error .aborted) := by
  unfold prepare
  split
  · rename_i e1 evs1 heq
    refine ⟨⟨e1, rfl⟩, ?_⟩
    intro b hb2
    rw [heq] at hb2
    simp at hb2
  · rename_i b1 evs1 heq
    rw [if_pos hsig]
    exact ⟨⟨.aborted, rfl⟩, fun b2 hb2 => rfl⟩

/-- C7: for every call whose cancellation handle is already in the
cancelled state, the transport is never dispatched, and — provided the
steps before the signal check succeed — `request` throws the
cancellation error. -/
theorem c7_pre_aborted (cfg : APIConfig) (endpoint : String)
    (call : CallOptions) (resp : Response)
    (hsig : call.signal = some true) :
    Ev.dispatch ∉ (request cfg endpoint call resp).2
    ∧ (∀ b, (buildURLPhase cfg endpoint call).1 = .ok b →
        (request cfg endpoint call resp).1 = .error ReqError.aborted) := by
  obtain ⟨⟨e, herr⟩, habort⟩ := prepare_of_aborted cfg endpoint call hsig
  rw [request_of_prepare_error cfg endpoint call resp e herr]
  constructor
  · intro hmem
    rcases prepare_events cfg endpoint call Ev.dispatch hmem with h | h | h <;>
      exact Ev.noConfusion h
  · intro b hb
    have h2 := habort b hb
    rw [herr] at h2
    simp only [Except.error.injEq] at h2
    subst h2
    rfl

/-- C10: given that the URL-building steps succeeded and the signal is
not pre-aborted, the outgoing request carries a body only when the
method is not `GET`, the caller supplied a body variable, and the
endpoint declares a body schema; in every other case — `GET`, no body
variable, or a body variable without a body schema — `prepare` succeeds
with no body attached and raises no error. -/
theorem c10_body_only_when_due (cfg : APIConfig) (endpoint : String)
    (call : CallOptions) (b : BuiltURL)
    (hbuild : (buildURLPhase cfg endpoint call).1 = .ok b)
    (hsig : call.signal ≠ some true) :
    ((b.method = "GET" ∨ call.body = none ∨ b.route.body = none) →
      ∃ p, (prepare cfg endpoint call).1 = .ok p ∧ p.body = none)
    ∧ (∀ p, (prepare cfg endpoint call).1 = .ok p → p.body ≠ none →
      b.method ≠ "GET" ∧ call.body ≠ none ∧ b.route.body ≠ none) := by
  unfold prepare
  split
  · rename_i e1 evs1 heq
    rw [heq] at hbuild
    simp at hbuild
  · rename_i b1 evs1 heq
    rw [heq] at hbuild
    simp only [Except.ok.injEq] at hbuild
    subst hbuild
    rw [if_neg hsig]
    unfold bodyPhase
    by_cases hm : b1.method = "GET"
    · rw [if_neg (fun hn => hn hm)]
      constructor
      · intro _
        exact ⟨⟨b1.route, b1.method, b1.urlPath, b1.query, none⟩, rfl, rfl⟩
      · intro p hp hbody
        simp only [Except.ok.injEq] at hp
        rw [← hp] at hbody
        exact absurd rfl hbody
    · rw [if_pos hm]
      rcases hcb : call.body with - | bv
      · constructor
        · intro _
          exact ⟨⟨b1.route, b1.method, b1.urlPath, b1.query, none⟩, rfl, rfl⟩
        · intro p hp hbody
          simp only [Except.ok.injEq] at hp
          rw [← hp] at hbody
          exact absurd rfl hbody
      · rcases hrb : b1.route.body with - | schema
        · constructor
          · intro _
            exact ⟨⟨b1.route, b1.method, b1.urlPath, b1.query, none⟩, rfl, rfl⟩
          · intro p hp hbody
            simp only [Except.ok.injEq] at hp
            rw [← hp] at hbody
            exact absurd rfl hbody
        · rcases hv : schema bv with err | valid
          · constructor
            · intro hcase
              rcases hcase with h | h | h
              · exact absurd h hm
              · simp at h
              · simp at h
            · intro p hp
              simp [hv] at hp
          · constructor
            · intro hcase
              rcases hcase with h | h | h
              · exact absurd h hm
              · simp at h
              · simp at h
            · intro p hp hbody
              refine ⟨hm, ?_, ?_⟩
              · simp
              · simp

/-- Has a params-validation event happened strictly before a
path-expansion event?  This is the claim's property of a trace. -/
def hasValidateBeforeExpand : List Ev → Bool
  | [] => false
  | .validateParams :: rest => rest.contains .expandPath || hasValidateBeforeExpand rest
  | _ :: rest => hasValidateBeforeExpand rest

/-- C3 (amended): route parameters are never schema-validated — no
execution of `request` contains a params-validation event; the Path
Templater receives the caller's raw parameter mapping (the endpoint
definition carries no params schema at all). -/
theorem c3_amended_params_never_validated (cfg : APIConfig) (endpoint : String)
    (call : CallOptions) (resp : Response) :
    Ev.validateParams ∉ (request cfg endpoint call resp).2 := by
  intro hmem
  rcases request_events cfg endpoint call resp Ev.validateParams hmem with
    h | h | h | h | h <;> exact Ev.noConfusion h

/-! Concrete configurations used by the witnesses. -/

/-- Identity schema (like `z.any()`): accepts and returns the value. -/
def okSchema : Schema := fun v => .ok v

/-- Endpoint expecting only a success schema. -/
def epNoFail : EndpointOptions := ⟨none, none, ⟨okSchema, none⟩⟩

/-- Endpoint expecting success and failure schemas. -/
def epFail : EndpointOptions := ⟨none, none, ⟨okSchema, some okSchema⟩⟩

/-- Endpoint with a body schema. -/
def epBody : EndpointOptions := ⟨none, some okSchema, ⟨okSchema, none⟩⟩

/-- Sample client configuration. -/
def cfgSample : APIConfig :=
  ⟨[("GET /users", epNoFail), ("GET /items", epFail),
    ("POST /users", epBody), ("GET /users/:userId", epFail)]⟩

/-- A call with no variables and no signal. -/
def callPlain : CallOptions := ⟨none, none, none, none⟩

/-- The prepared request for `GET /users` with no variables. -/
def prepPlain : Prepared := ⟨epNoFail, "GET", "users", [], none⟩

/-- The prepared request for `GET /items` with no variables. -/
def prepItems : Prepared := ⟨epFail, "GET", "items", [], none⟩

/-- The built URL for `GET /users` with no variables. -/
def builtUsers : BuiltURL := ⟨epNoFail, "GET", "users", []⟩

/-- Witness for C1: a 204 JSON response on an endpoint without a failure
schema returns the bare validated value. -/
theorem c1_2xx_result_shape_witness :
    (request cfgSample "GET /users" callPlain
        ⟨204, some "application/json", some (.obj [])⟩).1 = .ok (.obj []) := by
  have h := (c1_2xx_result_shape cfgSample "GET /users" callPlain
      ⟨204, some "application/json", some (.obj [])⟩ prepPlain (.obj [])
      rfl rfl rfl (by show 200 ≤ 204 ∧ 204 < 300; omega)).1 rfl
  rw [h]
  simp [prepPlain, epNoFail, okSchema, parse, mapJsonKeys_obj, fromEntriesJS,
    Except.mapError]

/-- Witness for C2: a 404 JSON response on an endpoint with a failure
schema returns the tagged failure result carrying the status code. -/
theorem c2_4xx_and_unclassified_witness :
    (request cfgSample "GET /items" callPlain
        ⟨404, some "application/json", some (.obj [])⟩).1 =
      .ok (.obj [("status", .str "failure"), ("data", .obj []),
        ("code", .num 404)]) := by
  have h := ((c2_4xx_and_unclassified cfgSample "GET /items" callPlain
      ⟨404, some "application/json", some (.obj [])⟩ prepItems (.obj [])
      rfl rfl rfl).1 (by show 400 ≤ 404 ∧ 404 < 500; omega)).2 okSchema rfl
  rw [h]
  simp [parse, mapJsonKeys_obj, fromEntriesJS, okSchema, Except.mapError,
    Except.map]

/-- Witness for C6: a `text/plain` response fails as non-JSON without the
body ever being read. -/
theorem c6_non_json_response_witness :
    (request cfgSample "GET /users" callPlain
        ⟨200, some "text/plain", some .null⟩).1 = .error (.nonJson "GET /users")
    ∧ Ev.readBody ∉ (request cfgSample "GET /users" callPlain
        ⟨200, some "text/plain", some .null⟩).2 :=
  c6_non_json_response cfgSample "GET /users" callPlain
    ⟨200, some "text/plain", some .null⟩ prepPlain rfl rfl

/-- A call whose abort signal is already in the aborted state. -/
def callAborted : CallOptions := ⟨none, none, none, some true⟩

/-- Witness for C7: a pre-aborted signal yields the cancellation error
and the transport is never dispatched. -/
theorem c7_pre_aborted_witness :
    (request cfgSample "GET /users" callAborted
        ⟨200, some "application/json", some .null⟩).1 = .error ReqError.aborted
    ∧ Ev.dispatch ∉ (request cfgSample "GET /users" callAborted
        ⟨200, some "application/json", some .null⟩).2 := by
  obtain ⟨h1, h2⟩ := c7_pre_aborted cfgSample "GET /users" callAborted
    ⟨200, some "application/json", some .null⟩ rfl
  exact ⟨h2 ⟨epNoFail, "GET", "users", []⟩ rfl, h1⟩

/-- Witness for C10: a `GET` call prepares successfully with no body. -/
theorem c10_body_only_when_due_witness :
    ∃ p, (prepare cfgSample "GET /users" callPlain).1 = .ok p ∧
      p.body = none :=
  (c10_body_only_when_due cfgSample "GET /users" callPlain builtUsers rfl
    (by simp [callPlain])).1 (Or.inl rfl)

/-- A call supplying route parameters. -/
def callWithParams : CallOptions :=
  ⟨some (fun k => if k = "userId" then some "3" else none), none, none, none⟩

/-- A response with no `Content-Type` header. -/
def respPlainText : Response := ⟨200, none, none⟩

/-- C3 counterexample: a concrete `request` run that supplies route
parameters and runs the Path Templater, while its trace contains no
params-validation event before (indeed anywhere near) the path
expansion — refuting the claim that supplied route parameters are
validated against a params schema before the Path Templater runs. -/
theorem c3_counterexample_params_not_validated :
    callWithParams.params ≠ none
    ∧ Ev.expandPath ∈
        (request cfgSample "GET /users/:userId" callWithParams respPlainText).2
    ∧ hasValidateBeforeExpand
        (request cfgSample "GET /users/:userId" callWithParams respPlainText).2
        = false := by
  have htr : (request cfgSample "GET /users/:userId" callWithParams
      respPlainText).2 = [Ev.expandPath, Ev.dispatch] := rfl
  refine ⟨by simp [callWithParams], ?_, ?_⟩
  · rw [htr]
    simp
  · rw [htr]
    rfl
